import Mathlib

/-!
# Verification of the doltgresql wire-protocol slice

Shallow embedding of the PostgreSQL wire-protocol message codec slice of
the doltgresql repository (message schemas `copyDataDefault` and
`parseCompleteDefault`, the variant encode/decode methods, the listener
accept loop, the `left` SQL function, and the `XidType` / `VarCharType`
value conversions), together with proofs of the specification claims.

Parts of the repository that the provided slice only calls into (the
`connection` codec-engine package and the connection state machine) are
modelled from the specification; every such definition carries a doc
comment starting with `Modelled from the spec:`.
-/

namespace Doltgres

/-! ## Field schema data model (spec §3; mirrored from the `connection`
package as used by `copy_data.go` and `parse_complete.go`) -/

/-- Wire types of message fields (spec §3: fixed 1-byte, fixed 2-byte,
fixed 4-byte signed integer, null-terminated string, length-prefixed byte
string, raw remaining bytes). The two schemas in the slice use `Byte1`,
`Int32` and `ByteN`. -/
inductive WireType where
  | Byte1
  | Int16
  | Int32
  | StringNT
  | LengthPrefixedBytes
  | ByteN
deriving DecidableEq, Repr

/-- Field flags (spec §3: none | IsHeaderTag | IsInclusiveLength; the Go
source names them `Header` and `MessageLengthInclusive`). -/
inductive FieldFlags where
  | NoFlags
  | Header
  | MessageLengthInclusive
deriving DecidableEq, Repr

/-- The dynamic value stored in a field (`Data` in the Go source: an
`int32` for fixed-width fields, a byte slice for byte fields, a string
for string fields). Bytes are modelled as naturals below 256. -/
inductive FieldData where
  | IntData (i : Int)
  | BytesData (bs : List Nat)
  | StrData (s : String)
deriving DecidableEq, Repr

/-- One element of a message layout (`connection.Field`). -/
structure Field where
  Name : String
  Typ : WireType
  Flags : FieldFlags
  Data : FieldData
deriving DecidableEq, Repr

/-- A named, ordered sequence of fields (`connection.MessageFormat`). -/
structure MessageFormat where
  Name : String
  Fields : List Field
deriving DecidableEq, Repr

/-- The default schema of the CopyData message, transcribed from
`copyDataDefault` in `postgres/messages/copy_data.go`: header byte `'d'`
(= 100), self-inclusive Int32 length, raw byte payload `Data`. -/
def copyDataDefault : MessageFormat :=
  { Name := "CopyData"
    Fields :=
      [ { Name := "Header"
          Typ := .Byte1
          Flags := .Header
          Data := .IntData 100 }
      , { Name := "MessageLength"
          Typ := .Int32
          Flags := .MessageLengthInclusive
          Data := .IntData 0 }
      , { Name := "Data"
          Typ := .ByteN
          Flags := .NoFlags
          Data := .BytesData [] } ] }

/-- The default schema of the ParseComplete message, transcribed from
`parseCompleteDefault` in `postgres/messages/parse_complete.go`: header
byte `'1'` (= 49) and a self-inclusive Int32 length with default value 4;
no payload fields. -/
def parseCompleteDefault : MessageFormat :=
  { Name := "ParseComplete"
    Fields :=
      [ { Name := "Header"
          Typ := .Byte1
          Flags := .Header
          Data := .IntData 49 }
      , { Name := "MessageLength"
          Typ := .Int32
          Flags := .MessageLengthInclusive
          Data := .IntData 4 } ] }

/-! ## Codec-engine operations used by the slice

The `connection` package itself is not part of the provided slice; the
operations below are modelled from the specification (§4.1). -/

/-- Modelled from the spec: writing a value into the named field of a
message format (`MessageFormat.Field(name).MustWrite(v)` on a fresh
`Copy()`); replaces the `Data` of the field with the given name. -/
def fieldWrite (mf : MessageFormat) (fname : String) (d : FieldData) : MessageFormat :=
  { mf with Fields := mf.Fields.map fun f => if f.Name = fname then { f with Data := d } else f }

/-- Modelled from the spec: reading the value of the named field
(`MessageFormat.Field(name).MustGet()`). -/
def fieldGet (mf : MessageFormat) (fname : String) : Option FieldData :=
  (mf.Fields.find? fun f => f.Name = fname).map Field.Data

/-- The shape of a message format: the sequence of field names, wire
types and flags, with the field values erased (spec §3: two schemas are
"matching" if they have identical field names, wire types, and flags in
the same order). -/
def structureOf (mf : MessageFormat) : List (String × WireType × FieldFlags) :=
  mf.Fields.map fun f => (f.Name, f.Typ, f.Flags)

/-- Modelled from the spec: `MessageFormat.MatchesStructure(expected)`,
the structural equality check over field name/type/flag sequences
(spec §4.1). -/
def matchesStructure (candidate expected : MessageFormat) : Bool :=
  structureOf candidate = structureOf expected

/-- Errors of the codec engine and message catalog (spec §7). -/
inductive CodecErr where
  | SchemaMismatch
  | UnknownMessageType (tag : Nat)
  | MalformedMessage
  | CastFailure
deriving DecidableEq, Repr

/-! ## The two message variants of the slice -/

/-- `CopyData` message value (`copy_data.go`). -/
structure CopyData where
  Data : List Nat
deriving DecidableEq, Repr

/-- `CopyData.Encode`: copy the default schema and write the payload into
the `Data` field (`copy_data.go` lines 55-59). -/
def CopyData.Encode (m : CopyData) : MessageFormat :=
  fieldWrite copyDataDefault "Data" (.BytesData m.Data)

/-- `CopyData.Decode`: check the candidate against the default schema,
then read the `Data` field back (`copy_data.go` lines 62-69). The Go type
assertion `.([]byte)` is modelled as `CastFailure` when the field does
not hold bytes. -/
def CopyData.Decode (s : MessageFormat) : Except CodecErr CopyData :=
  if matchesStructure s copyDataDefault then
    match fieldGet s "Data" with
    | some (.BytesData bs) => .ok { Data := bs }
    | _ => .error .CastFailure
  else .error .SchemaMismatch

/-- `ParseComplete` message value (`parse_complete.go`). -/
structure ParseComplete where
deriving DecidableEq, Repr

/-- `ParseComplete.encode`: a copy of the default schema
(`parse_complete.go` lines 45-47). -/
def ParseComplete.encode (_ : ParseComplete) : MessageFormat :=
  parseCompleteDefault

/-- `ParseComplete.decode`: check the candidate against the default
schema and return the empty message (`parse_complete.go` lines 50-55). -/
def ParseComplete.decode (s : MessageFormat) : Except CodecErr ParseComplete :=
  if matchesStructure s parseCompleteDefault then .ok {}
  else .error .SchemaMismatch

/-! ## Byte-level codec engine (spec §4.1, modelled from the spec) -/

/-- Big-endian 4-byte encoding of a value below `2^32`
(`binary.BigEndian.PutUint32`). -/
def putUint32BE (v : Nat) : List Nat :=
  [v / 2 ^ 24 % 256, v / 2 ^ 16 % 256, v / 2 ^ 8 % 256, v % 256]

/-- Big-endian value of a list of bytes. -/
def beVal : List Nat → Nat
  | [] => 0
  | b :: bs => b * 256 ^ bs.length + beVal bs

/-- The number of wire bytes a field occupies when serialized
(spec §4.1: fixed-width types consume a fixed count; null-terminated
strings their bytes plus the terminator; length-prefixed byte strings a
4-byte header plus the payload; `ByteN` the raw payload). -/
def fieldSize (f : Field) : Nat :=
  match f.Typ, f.Data with
  | .Byte1, _ => 1
  | .Int16, _ => 2
  | .Int32, _ => 4
  | .StringNT, .StrData s => s.utf8ByteSize + 1
  | .LengthPrefixedBytes, .BytesData bs => 4 + bs.length
  | .ByteN, .BytesData bs => bs.length
  | _, _ => 0

/-- Total size of a list of serialized fields. -/
def fieldsSize (fs : List Field) : Nat :=
  (fs.map fieldSize).sum

/-- Modelled from the spec: serializing one field's stored value to wire
bytes (spec §4.1, big-endian numerics; mismatched dynamic data encodes to
nothing, which never arises for well-formed instances). -/
def encodeField (f : Field) : List Nat :=
  match f.Typ, f.Data with
  | .Byte1, .IntData i => [(i % 256).toNat]
  | .Int16, .IntData i => [(i % 65536).toNat / 256, (i % 65536).toNat % 256]
  | .Int32, .IntData i => putUint32BE (i % 2 ^ 32).toNat
  | .StringNT, .StrData s => s.toUTF8.toList.map UInt8.toNat ++ [0]
  | .LengthPrefixedBytes, .BytesData bs => putUint32BE (bs.length % 2 ^ 32) ++ bs
  | .ByteN, .BytesData bs => bs
  | _, _ => []

/-- Modelled from the spec: the encode pass of the codec engine
(spec §4.1). Fields are written in declared order; the field flagged
`MessageLengthInclusive` is written not from its stored value but as
4 (its own width) plus the serialized size of every subsequent field. -/
def encodeFields : List Field → List Nat
  | [] => []
  | f :: rest =>
    match f.Flags with
    | .MessageLengthInclusive => putUint32BE ((4 + fieldsSize rest) % 2 ^ 32) ++ encodeFields rest
    | _ => encodeField f ++ encodeFields rest

/-- Modelled from the spec: serializing a whole message format to the
wire (spec §4.1). -/
def encodeFormat (mf : MessageFormat) : List Nat :=
  encodeFields mf.Fields

/-! ## Message catalog registry (spec §4.2) -/

/-- The header-tag registry of the provided slice. `copy_data.go`'s
`init` calls `connection.AddMessageHeader(CopyData{})`, registering tag
`'d'` (= 100); `parse_complete.go` registers no header (ParseComplete is
a backend-to-client message). -/
def messageHeaderRegistry : List (Nat × MessageFormat) :=
  [(100, copyDataDefault)]

/-- Registry lookup by tag byte. -/
def lookupMessageHeader (tag : Nat) : Option MessageFormat :=
  (messageHeaderRegistry.find? fun p => p.1 = tag).map Prod.snd

/-- Modelled from the spec: the decode pass of the codec engine
(spec §4.1 / §4.3). Fields are read strictly in declared order, each
consuming exactly the bytes its wire type specifies; the
`MessageLengthInclusive` field must equal 4 plus the bytes remaining
after it; `ByteN` consumes whatever is left; shortage or leftover bytes
fail with `MalformedMessage`. -/
def decodeFields : List Field → List Nat → Except CodecErr (List Field)
  | [], bs => if bs.isEmpty then .ok [] else .error .MalformedMessage
  | f :: rest, bs =>
    match f.Typ with
    | .Byte1 =>
      match bs with
      | b :: bs2 => (decodeFields rest bs2).map ({ f with Data := .IntData (Int.ofNat b) } :: ·)
      | [] => .error .MalformedMessage
    | .Int16 =>
      if 2 ≤ bs.length then
        (decodeFields rest (bs.drop 2)).map
          ({ f with Data := .IntData (Int.ofNat (beVal (bs.take 2))) } :: ·)
      else .error .MalformedMessage
    | .Int32 =>
      if 4 ≤ bs.length then
        if f.Flags = .MessageLengthInclusive ∧ beVal (bs.take 4) ≠ 4 + (bs.drop 4).length then
          .error .MalformedMessage
        else
          (decodeFields rest (bs.drop 4)).map
            ({ f with Data := .IntData (Int.ofNat (beVal (bs.take 4))) } :: ·)
      else .error .MalformedMessage
    | .StringNT =>
      let pre := bs.takeWhile (· ≠ 0)
      if pre.length < bs.length then
        (decodeFields rest (bs.drop (pre.length + 1))).map
          ({ f with Data := .BytesData pre } :: ·)
      else .error .MalformedMessage
    | .LengthPrefixedBytes =>
      if 4 ≤ bs.length ∧ beVal (bs.take 4) ≤ (bs.drop 4).length then
        (decodeFields rest ((bs.drop 4).drop (beVal (bs.take 4)))).map
          ({ f with Data := .BytesData ((bs.drop 4).take (beVal (bs.take 4))) } :: ·)
      else .error .MalformedMessage
    | .ByteN =>
      (decodeFields rest []).map ({ f with Data := .BytesData bs } :: ·)

/-- Modelled from the spec: two-phase inbound frame dispatch (spec §4.2):
peek the header tag byte to select the candidate variant from the
registry; an unknown tag fails with `UnknownMessageType` carrying the
offending byte; otherwise decode the frame against the selected
variant's default schema. -/
def dispatchFrame (bs : List Nat) : Except CodecErr MessageFormat :=
  match bs with
  | [] => .error .MalformedMessage
  | tag :: _ =>
    match lookupMessageHeader tag with
    | none => .error (.UnknownMessageType tag)
    | some mf => (decodeFields mf.Fields bs).map ({ mf with Fields := · })

/-- The catalog of message schemas in the provided slice. -/
def messageCatalog : List MessageFormat := [copyDataDefault, parseCompleteDefault]

/-! ## Connection state machine (spec §4.3, modelled from the spec) -/

/-- Transaction status carried by a `ReadyForQuery` message
(spec §4.3: `Ready(Idle)` / `Ready(InTransaction)`). -/
inductive TxnIndicator where
  | idle
  | inTransaction
deriving DecidableEq, Repr

/-- Client messages of an extended-query sequence (spec §4.3). A failing
`bind` carries `succeeds := false` (the execution collaborator rejected
the parameters). -/
inductive PgClientMessage where
  | parse
  | bind (succeeds : Bool)
  | describe
  | execute
  | sync
  | terminate
deriving DecidableEq, Repr

/-- Observable server-side events: calls to the execution collaborator,
response messages written to the socket. -/
inductive ServerEvent where
  | execCall
  | rowData
  | parseComplete
  | bindComplete
  | metadataResponse
  | commandComplete
  | errorResponse
  | readyForQuery (status : TxnIndicator)
deriving DecidableEq, Repr

/-- Per-connection session state (spec §3/§4.3): whether a transaction is
open, the "suppressing execution until Sync" flag (spec §9 models
discard-until-Sync as an explicit state-machine flag), and whether the
socket has been closed. -/
structure SessionState where
  txnOpen : Bool
  failedUntilSync : Bool
  closed : Bool
deriving DecidableEq, Repr

/-- Modelled from the spec: one step of the connection state machine
during an extended-query sequence (spec §4.3). Any error moves the
connection to the failed state without closing the socket; while failed,
every message other than Sync is silently discarded (no execution call,
no response); Sync clears the failed flag, leaving `Ready(Idle)` or
`Ready(InTransaction)` depending on whether a transaction was open, and
emits a `ReadyForQuery` carrying that status. -/
def step (st : SessionState) (msg : PgClientMessage) : SessionState × List ServerEvent :=
  if st.closed then (st, [])
  else if st.failedUntilSync then
    match msg with
    | .sync =>
      let status := if st.txnOpen then TxnIndicator.inTransaction else TxnIndicator.idle
      ({ st with failedUntilSync := false }, [.readyForQuery status])
    | .terminate => ({ st with closed := true }, [])
    | .parse => (st, [])
    | .bind _ => (st, [])
    | .describe => (st, [])
    | .execute => (st, [])
  else
    match msg with
    | .parse => (st, [.parseComplete])
    | .bind ok =>
      if ok then (st, [.bindComplete])
      else ({ st with failedUntilSync := true }, [.errorResponse])
    | .describe => (st, [.metadataResponse])
    | .execute => (st, [.execCall, .rowData, .commandComplete])
    | .sync =>
      let status := if st.txnOpen then TxnIndicator.inTransaction else TxnIndicator.idle
      (st, [.readyForQuery status])
    | .terminate => ({ st with closed := true }, [])

/-- Running the state machine over a list of client messages, collecting
every emitted event in order. -/
def run (st : SessionState) : List PgClientMessage → SessionState × List ServerEvent
  | [] => (st, [])
  | m :: ms =>
    let s2 := step st m
    let s3 := run s2.1 ms
    (s3.1, s2.2 ++ s3.2)

/-! ## Listener accept loop (`Listener.Accept` in src/unnamed/part_006) -/

/-- The error text Go's net package reports on a closed listener, which
`Listener.Accept` compares against to decide to exit. -/
def closedConnMsg : String := "use of closed network connection"

/-- One result of `l.listener.Accept()`: a new connection or an error. -/
inductive AcceptResult where
  | conn (id : Nat)
  | err (msg : String)
deriving DecidableEq, Repr

/-- Observable actions of the accept loop: spawning a connection handler
(`go connectionHandler.HandleConnection()`) or reporting an accept
error (`fmt.Printf`). -/
inductive ListenerAction where
  | spawnHandler (id : Nat)
  | reportError (msg : String)
deriving DecidableEq, Repr

/-- The `Listener.Accept` loop (src/unnamed/part_006 lines 52-66),
embedded over a finite prefix of accept results: on a connection it
creates a handler and hands the socket off, doing nothing further for
that connection; on the closed-listener error it breaks out of the loop
(second component `true`); on any other error it reports the error and
continues. -/
def acceptLoop : List AcceptResult → List ListenerAction × Bool
  | [] => ([], false)
  | .conn id :: rest =>
    let r := acceptLoop rest
    (.spawnHandler id :: r.1, r.2)
  | .err msg :: rest =>
    if msg = closedConnMsg then ([], true)
    else
      let r := acceptLoop rest
      (.reportError msg :: r.1, r.2)

/-- The connection ids spawned by a list of listener actions. -/
def spawnedIds (acts : List ListenerAction) : List Nat :=
  acts.filterMap fun a => match a with | .spawnHandler id => some id | _ => none

/-- The error messages reported by a list of listener actions. -/
def reportedErrs (acts : List ListenerAction) : List String :=
  acts.filterMap fun a => match a with | .reportError msg => some msg | _ => none

/-- Specification-side description of the accept loop's connections: the
ids of every connection accepted before the listener was closed, in
arrival order. -/
def connsBeforeClose : List AcceptResult → List Nat
  | [] => []
  | .conn id :: rest => id :: connsBeforeClose rest
  | .err msg :: rest => if msg = closedConnMsg then [] else connsBeforeClose rest

/-- Specification-side description of the reported errors: every
non-closed accept error before the listener was closed. -/
def errsBeforeClose : List AcceptResult → List String
  | [] => []
  | .conn _ :: rest => errsBeforeClose rest
  | .err msg :: rest => if msg = closedConnMsg then [] else msg :: errsBeforeClose rest

/-! ## The `left` SQL function (src/unnamed/part_004) -/

/-- The framework's nullable string value; `Value` holds the raw bytes of
the Go string (Go slicing of strings is byte-based). -/
structure StringType where
  IsNull : Bool
  Value : List Nat
deriving DecidableEq, Repr

/-- The framework's nullable integer value. -/
structure IntegerType where
  IsNull : Bool
  Value : Int
deriving DecidableEq, Repr

/-- `left_string` from src/unnamed/part_004 lines 24-33. Go's slice
expression `s[:k]` panics unless `0 ≤ k ≤ len(s)`; the panic is modelled
as `none`. For non-negative `n` the code slices to `n`, otherwise to
`len(s) + n`. -/
def left_string (s : StringType) (n : IntegerType) : Option StringType :=
  if s.IsNull || n.IsNull then some { IsNull := true, Value := [] }
  else if 0 ≤ n.Value then
    if n.Value ≤ (s.Value.length : Int) then
      some { IsNull := false, Value := s.Value.take n.Value.toNat }
    else none
  else
    if 0 ≤ (s.Value.length : Int) + n.Value then
      some { IsNull := false, Value := s.Value.take ((s.Value.length : Int) + n.Value).toNat }
    else none

/-! ## XidType value serialization (server/types/xid.go) -/

/-- `XidType.SerializeValue` (xid.go lines 184-196): nil input yields a
nil byte slice (modelled as `[]`); otherwise the big-endian bytes of
`v + 2^31` in `uint32` arithmetic. The `convertUint32` helper is not part
of the provided slice; it is modelled as the identity on in-range uint32
values. -/
def XidSerializeValue : Option Nat → List Nat
  | none => []
  | some v => putUint32BE ((v + 2 ^ 31) % 2 ^ 32)

/-- `XidType.DeserializeValue` (xid.go lines 198-203): empty input yields
nil; otherwise `binary.BigEndian.Uint32` of the first four bytes minus
`2^31` in wrapping `uint32` arithmetic (subtracting `2^31` mod `2^32`
equals adding `2^31` mod `2^32`). Fewer than four bytes make
`binary.BigEndian.Uint32` panic, modelled as the outer `none`. -/
def XidDeserializeValue : List Nat → Option (Option Nat)
  | [] => some none
  | b0 :: b1 :: b2 :: b3 :: _ => some (some ((beVal [b0, b1, b2, b3] + 2 ^ 31) % 2 ^ 32))
  | _ => none

/-! ## VarCharType.Convert (server/types/varchar.go) -/

/-- UTF-8 byte length of a rune list (Go's `len(val)` on the string). -/
def charsByteLen (cs : List Char) : Nat := (cs.map Char.utf8Size).sum

/-- Inputs of `VarCharType.Convert`: a string, a byte slice (modelled by
its decoded runes), SQL NULL, or a value of any other dynamic type. -/
inductive SqlValue where
  | sqlStr (cs : List Char)
  | sqlBytes (cs : List Char)
  | sqlNull
  | sqlOther
deriving DecidableEq, Repr

/-- `sql.ConvertInRange` of go-mysql-server. -/
inductive ConvertInRange where
  | InRange
  | OutOfRange
deriving DecidableEq, Repr

/-- `VarCharType.Convert` (varchar.go lines 95-133), with strings as rune
lists: the fast byte-length check (`uint32(len(val)) > b.Length`, lines
100/115) precedes the rune-count check
(`uint32(utf8.RuneCountInString(val)) > b.Length`, lines 102/117); both
casts are narrowing conversions to `uint32` and wrap modulo `2^32`,
modelled by the explicit `% 2 ^ 32`. When both wrapped checks pass, the
loop drops the first `Length` runes from a cursor and returns the prefix
before the cursor, i.e. the first `Length` runes; otherwise the value
passes through unchanged. `nil` converts to `nil`, and any other dynamic
type errors with `OutOfRange`. -/
def VarCharConvert (Length : Nat) : SqlValue → Except String (Option (List Char) × ConvertInRange)
  | .sqlStr cs =>
    if Length < charsByteLen cs % 2 ^ 32 then
      if Length < cs.length % 2 ^ 32 then .ok (some (cs.take Length), .InRange)
      else .ok (some cs, .InRange)
    else .ok (some cs, .InRange)
  | .sqlBytes cs =>
    if Length < charsByteLen cs % 2 ^ 32 then
      if Length < cs.length % 2 ^ 32 then .ok (some (cs.take Length), .InRange)
      else .ok (some cs, .InRange)
    else .ok (some cs, .InRange)
  | .sqlNull => .ok (none, .InRange)
  | .sqlOther => .error "invalid type"

/-! ## Helper lemmas -/

/-- Big-endian recombination inverts 4-byte big-endian encoding. -/
theorem beVal_putUint32BE (x : Nat) (h : x < 2 ^ 32) : beVal (putUint32BE x) = x := by
  show x / 2 ^ 24 % 256 * 256 ^ 3 +
      (x / 2 ^ 16 % 256 * 256 ^ 2 + (x / 2 ^ 8 % 256 * 256 ^ 1 + (x % 256 * 256 ^ 0 + 0))) = x
  omega

/-- A 4-byte big-endian encoding occupies four bytes. -/
theorem putUint32BE_length (x : Nat) : (putUint32BE x).length = 4 := rfl

/-- While the failed flag is set and the socket open, any sequence of
Execute/Describe messages is silently discarded: no state change, no
events, in particular no execution-collaborator call and no rows. -/
theorem run_discard (st : SessionState) (hc : st.closed = false) (hf : st.failedUntilSync = true) :
    ∀ ms : List PgClientMessage, (∀ m ∈ ms, m = .execute ∨ m = .describe) →
      run st ms = (st, []) := by
  intro ms
  induction ms with
  | nil => intro _; rfl
  | cons m ms ih =>
    intro h
    have hm := h m (List.mem_cons_self m ms)
    have hstep : step st m = (st, []) := by
      rcases hm with hm | hm <;> subst hm <;> simp [step, hc, hf]
    simp [run, hstep, ih fun m hm => h m (List.mem_cons_of_mem _ hm)]

/-- Events and final state of a concatenated run. -/
theorem run_append (st : SessionState) (as bs : List PgClientMessage) :
    run st (as ++ bs) =
      ((run (run st as).1 bs).1, (run st as).2 ++ (run (run st as).1 bs).2) := by
  induction as generalizing st with
  | nil => simp [run]
  | cons a as ih => simp [run, ih]

/-- Every rune occupies at least one UTF-8 byte, so the rune count of a
string never exceeds its byte length. -/
theorem length_le_charsByteLen (cs : List Char) : cs.length ≤ charsByteLen cs := by
  induction cs with
  | nil => simp [charsByteLen]
  | cons c cs ih =>
    have := Char.utf8Size_pos c
    simp [charsByteLen] at ih ⊢
    omega

/-- Auxiliary arithmetic for the Xid round trip: serializing with a
`2^31` offset and deserializing with the wrapping inverse restores the
original value. -/
theorem xid_roundtrip_aux (v : Nat) (h : v < 2 ^ 32) :
    (beVal (putUint32BE ((v + 2 ^ 31) % 2 ^ 32)) + 2 ^ 31) % 2 ^ 32 = v := by
  rw [beVal_putUint32BE _ (Nat.mod_lt _ (by omega))]
  omega

/-! ## Claim theorems -/

/-- C1: for both message variants of the slice, decoding the encoding of
a message yields the message again, including the empty CopyData payload
boundary case. -/
theorem claim_C1_roundtrip :
    (∀ m : CopyData, CopyData.Decode (CopyData.Encode m) = .ok m)
    ∧ (∀ m : ParseComplete, ParseComplete.decode (ParseComplete.encode m) = .ok m)
    ∧ CopyData.Decode (CopyData.Encode { Data := [] }) = .ok { Data := [] } :=
  ⟨fun _ => rfl, fun _ => rfl, rfl⟩

/-- C2: in the encoded bytes of either variant, the value of the field
flagged `MessageLengthInclusive` equals the four bytes of the length
field itself plus the bytes of every field after it: 4 + len(Data) for
CopyData and exactly 4 for ParseComplete. -/
theorem claim_C2_inclusive_length :
    (∀ m : CopyData, m.Data.length + 4 < 2 ^ 32 →
      encodeFormat (CopyData.Encode m) = 100 :: (putUint32BE (4 + m.Data.length) ++ m.Data)
      ∧ (putUint32BE (4 + m.Data.length)).length = 4
      ∧ beVal (putUint32BE (4 + m.Data.length)) = 4 + m.Data.length)
    ∧ (encodeFormat (ParseComplete.encode {}) = 49 :: putUint32BE 4
      ∧ (putUint32BE 4).length = 4 ∧ beVal (putUint32BE 4) = 4) := by
  constructor
  · intro m h
    refine ⟨?_, putUint32BE_length _, beVal_putUint32BE _ (by omega)⟩
    have h2 : (4 + m.Data.length) % 4294967296 = 4 + m.Data.length := by omega
    simp [encodeFormat, CopyData.Encode, fieldWrite, copyDataDefault, encodeFields, encodeField,
      fieldsSize, fieldSize, h2]
  · refine ⟨?_, putUint32BE_length _, beVal_putUint32BE _ (by omega)⟩
    simp [encodeFormat, ParseComplete.encode, parseCompleteDefault, encodeFields, encodeField,
      fieldsSize, fieldSize]

theorem claim_C2_witness :
    encodeFormat (CopyData.Encode { Data := [7, 8] }) =
      100 :: (putUint32BE (4 + [7, 8].length) ++ [7, 8])
    ∧ (putUint32BE (4 + [7, 8].length)).length = 4
    ∧ beVal (putUint32BE (4 + [7, 8].length)) = 4 + [7, 8].length :=
  claim_C2_inclusive_length.1 { Data := [7, 8] } (by decide)

/-- C3: after a failed Bind inside an extended-query sequence the
connection enters the failed state without closing the socket; every
Execute/Describe before the next Sync is silently discarded (no
execution call, no rows, no response); Sync resets the connection and
emits a `ReadyForQuery` carrying `inTransaction` if a transaction was
open and `idle` otherwise. -/
theorem claim_C3_discard_until_sync :
    ∀ st : SessionState, st.closed = false → st.failedUntilSync = false →
      ∀ ms : List PgClientMessage, (∀ m ∈ ms, m = .execute ∨ m = .describe) →
        run st (.bind false :: ms) = ({ st with failedUntilSync := true }, [.errorResponse])
        ∧ run st (.bind false :: (ms ++ [.sync])) =
            (st, [.errorResponse,
                  .readyForQuery (if st.txnOpen then .inTransaction else .idle)]) := by
  intro st hc hf ms hms
  obtain ⟨txn, fs, cl⟩ := st
  simp only at hc hf
  subst hc hf
  have hstep : step ⟨txn, false, false⟩ (.bind false) = (⟨txn, true, false⟩, [.errorResponse]) := by
    simp [step]
  have hdis : run ⟨txn, true, false⟩ ms = (⟨txn, true, false⟩, []) :=
    run_discard _ rfl rfl ms hms
  constructor
  · simp [run, hstep, hdis]
  · simp [run, hstep, run_append, hdis, step]

theorem claim_C3_witness :
    run ⟨true, false, false⟩ [.bind false, .execute, .describe, .sync] =
      (⟨true, false, false⟩, [.errorResponse, .readyForQuery .inTransaction]) := by
  have h := (claim_C3_discard_until_sync ⟨true, false, false⟩ rfl rfl
    [.execute, .describe] (by decide)).2
  simpa using h

/-- C4: every schema in the slice's catalog satisfies the framing
invariant: exactly one header-tag field, first, of one byte; exactly one
self-inclusive length field, second, of four bytes; every payload field
unflagged. The header tags are `'d'` (100) for CopyData and `'1'` (49)
for ParseComplete. -/
theorem claim_C4_framing_invariant :
    (∀ mf ∈ messageCatalog,
      mf.Fields.countP (fun f => f.Flags = .Header) = 1
      ∧ mf.Fields.countP (fun f => f.Flags = .MessageLengthInclusive) = 1
      ∧ ∃ fh fl rest, mf.Fields = fh :: fl :: rest
          ∧ fh.Flags = .Header ∧ fh.Typ = .Byte1
          ∧ fl.Flags = .MessageLengthInclusive ∧ fl.Typ = .Int32
          ∧ ∀ f ∈ rest, f.Flags = .NoFlags)
    ∧ fieldGet copyDataDefault "Header" = some (.IntData 100)
    ∧ fieldGet parseCompleteDefault "Header" = some (.IntData 49) := by
  refine ⟨?_, rfl, rfl⟩
  intro mf hmf
  simp [messageCatalog] at hmf
  rcases hmf with h | h <;> subst h <;>
    exact ⟨by decide, by decide, _, _, _, rfl, rfl, rfl, rfl, rfl, by decide⟩

theorem claim_C4_witness :
    copyDataDefault.Fields.countP (fun f => f.Flags = .Header) = 1
    ∧ copyDataDefault.Fields.countP (fun f => f.Flags = .MessageLengthInclusive) = 1
    ∧ ∃ fh fl rest, copyDataDefault.Fields = fh :: fl :: rest
        ∧ fh.Flags = .Header ∧ fh.Typ = .Byte1
        ∧ fl.Flags = .MessageLengthInclusive ∧ fl.Typ = .Int32
        ∧ ∀ f ∈ rest, f.Flags = .NoFlags :=
  claim_C4_framing_invariant.1 copyDataDefault (by simp [messageCatalog])

/-- C5: decoding a message format whose field name/type/flag sequence
differs from the variant's default schema fails with `SchemaMismatch`
and yields no message; a successful decode forces the structures to
match exactly. -/
theorem claim_C5_schema_mismatch :
    ∀ s : MessageFormat,
      (structureOf s ≠ structureOf copyDataDefault →
        CopyData.Decode s = .error .SchemaMismatch)
      ∧ (∀ m, CopyData.Decode s = .ok m → structureOf s = structureOf copyDataDefault)
      ∧ (structureOf s ≠ structureOf parseCompleteDefault →
        ParseComplete.decode s = .error .SchemaMismatch)
      ∧ (∀ m, ParseComplete.decode s = .ok m →
        structureOf s = structureOf parseCompleteDefault) := by
  intro s
  refine ⟨fun h => ?_, fun m hm => ?_, fun h => ?_, fun m hm => ?_⟩
  · simp [CopyData.Decode, matchesStructure, h]
  · by_contra h
    simp [CopyData.Decode, matchesStructure, h] at hm
  · simp [ParseComplete.decode, matchesStructure, h]
  · by_contra h
    simp [ParseComplete.decode, matchesStructure, h] at hm

theorem claim_C5_witness :
    CopyData.Decode parseCompleteDefault = .error .SchemaMismatch
    ∧ ParseComplete.decode copyDataDefault = .error .SchemaMismatch :=
  ⟨(claim_C5_schema_mismatch parseCompleteDefault).1 (by decide),
   (claim_C5_schema_mismatch copyDataDefault).2.2.1 (by decide)⟩

/-- C6: dispatching an inbound frame whose tag byte is not registered in
the catalog fails with `UnknownMessageType` carrying the offending byte;
in the slice only `'d'` (100) is registered (by `copy_data.go`'s init),
and it maps to the CopyData schema. -/
theorem claim_C6_unknown_tag :
    (∀ tag rest, lookupMessageHeader tag = none →
      dispatchFrame (tag :: rest) = .error (.UnknownMessageType tag))
    ∧ (∀ tag, tag ≠ 100 → lookupMessageHeader tag = none)
    ∧ lookupMessageHeader 100 = some copyDataDefault := by
  refine ⟨fun tag rest h => ?_, fun tag h => ?_, rfl⟩
  · simp [dispatchFrame, h]
  · simp [lookupMessageHeader, messageHeaderRegistry, List.find?, Ne.symm h]

theorem claim_C6_witness :
    dispatchFrame (49 :: [0, 0, 0, 4]) = .error (.UnknownMessageType 49) :=
  claim_C6_unknown_tag.1 49 [0, 0, 0, 4] (by decide)

/-- C7: the accept loop spawns exactly one connection handler per
accepted connection, in arrival order, and nothing else for it; it exits
exactly when the underlying listener reports the closed-listener error;
any other accept error is reported and the loop continues accepting. -/
theorem claim_C7_accept_loop :
    ∀ evs : List AcceptResult,
      spawnedIds (acceptLoop evs).1 = connsBeforeClose evs
      ∧ reportedErrs (acceptLoop evs).1 = errsBeforeClose evs
      ∧ ((acceptLoop evs).2 = true ↔ .err closedConnMsg ∈ evs) := by
  intro evs
  induction evs with
  | nil => exact ⟨rfl, rfl, by simp [acceptLoop]⟩
  | cons e rest ih =>
    obtain ⟨ih1, ih2, ih3⟩ := ih
    cases e with
    | conn id =>
      refine ⟨?_, ?_, ?_⟩
      · simp [acceptLoop, spawnedIds, connsBeforeClose, spawnedIds] at ih1 ⊢
        exact ih1
      · simpa [acceptLoop, reportedErrs, errsBeforeClose] using ih2
      · simpa [acceptLoop] using ih3
    | err msg =>
      by_cases h : msg = closedConnMsg
      · subst h
        refine ⟨?_, ?_, ?_⟩
        · simp [acceptLoop, spawnedIds, connsBeforeClose]
        · simp [acceptLoop, reportedErrs, errsBeforeClose]
        · simp [acceptLoop]
      · refine ⟨?_, ?_, ?_⟩
        · simpa [acceptLoop, h, spawnedIds, connsBeforeClose] using ih1
        · simpa [acceptLoop, h, reportedErrs, errsBeforeClose] using ih2
        · simp [acceptLoop, h, ih3]
          intro hmem
          exact absurd hmem.symm h

theorem claim_C7_witness :
    (acceptLoop [.conn 1, .err "boom", .conn 2, .err closedConnMsg, .conn 3]).1 =
      [.spawnHandler 1, .reportError "boom", .spawnHandler 2]
    ∧ (acceptLoop [.conn 1, .err "boom", .conn 2, .err closedConnMsg, .conn 3]).2 = true := by
  constructor
  · rfl
  · exact (claim_C7_accept_loop _).2.2.mpr (by simp)

/-- C8: `left_string` on non-null inputs returns the byte prefix of
length n for `0 ≤ n ≤ len(s)` and of length `len(s) + n` for
`-len(s) ≤ n < 0`; outside those bounds the slice index is out of range
(a Go panic, modelled as `none`), so totality holds only under the
precondition `-len(s) ≤ n ≤ len(s)`. -/
theorem claim_C8_left_string_bounds :
    ∀ (s : StringType) (n : IntegerType), s.IsNull = false → n.IsNull = false →
      (0 ≤ n.Value → n.Value ≤ (s.Value.length : Int) →
        left_string s n = some { IsNull := false, Value := s.Value.take n.Value.toNat })
      ∧ (-(s.Value.length : Int) ≤ n.Value → n.Value < 0 →
        left_string s n =
          some { IsNull := false,
                 Value := s.Value.take ((s.Value.length : Int) + n.Value).toNat })
      ∧ ((s.Value.length : Int) < n.Value → left_string s n = none)
      ∧ (n.Value < -(s.Value.length : Int) → left_string s n = none) := by
  intro s n hs hn
  refine ⟨fun h1 h2 => ?_, fun h1 h2 => ?_, fun h1 => ?_, fun h1 => ?_⟩ <;>
  · simp only [left_string, hs, hn, Bool.or_self, Bool.false_eq_true, if_false]
    split_ifs <;> first | rfl | (exfalso; omega)

theorem claim_C8_witness :
    left_string ⟨false, [1, 2, 3]⟩ ⟨false, 2⟩ = some ⟨false, [1, 2]⟩
    ∧ left_string ⟨false, [1, 2, 3]⟩ ⟨false, -1⟩ = some ⟨false, [1, 2]⟩
    ∧ left_string ⟨false, [1, 2, 3]⟩ ⟨false, 5⟩ = none
    ∧ left_string ⟨false, [1, 2, 3]⟩ ⟨false, -5⟩ = none :=
  ⟨(claim_C8_left_string_bounds ⟨false, [1, 2, 3]⟩ ⟨false, 2⟩ rfl rfl).1
      (by decide) (by decide),
   (claim_C8_left_string_bounds ⟨false, [1, 2, 3]⟩ ⟨false, -1⟩ rfl rfl).2.1
      (by decide) (by decide),
   (claim_C8_left_string_bounds ⟨false, [1, 2, 3]⟩ ⟨false, 5⟩ rfl rfl).2.2.1 (by decide),
   (claim_C8_left_string_bounds ⟨false, [1, 2, 3]⟩ ⟨false, -5⟩ rfl rfl).2.2.2 (by decide)⟩

/-- C9: Xid value serialization round-trips: for every uint32 value v,
deserializing the serialization yields v again (the serialization being
the big-endian bytes of `v + 2^31 mod 2^32`), and nil/empty input maps
to nil in both directions. -/
theorem claim_C9_xid_roundtrip :
    ∀ v : Nat, v < 2 ^ 32 →
      XidDeserializeValue (XidSerializeValue (some v)) = some (some v)
      ∧ XidSerializeValue (some v) = putUint32BE ((v + 2 ^ 31) % 2 ^ 32)
      ∧ XidSerializeValue none = []
      ∧ XidDeserializeValue [] = some none := by
  intro v h
  refine ⟨?_, rfl, rfl, rfl⟩
  show XidDeserializeValue (putUint32BE ((v + 2 ^ 31) % 2 ^ 32)) = some (some v)
  rw [show putUint32BE ((v + 2 ^ 31) % 2 ^ 32) =
    [(v + 2 ^ 31) % 2 ^ 32 / 2 ^ 24 % 256, (v + 2 ^ 31) % 2 ^ 32 / 2 ^ 16 % 256,
     (v + 2 ^ 31) % 2 ^ 32 / 2 ^ 8 % 256, (v + 2 ^ 31) % 2 ^ 32 % 256] from rfl]
  show some (some ((beVal _ + 2 ^ 31) % 2 ^ 32)) = some (some v)
  have haux := xid_roundtrip_aux v h
  rw [show beVal [(v + 2 ^ 31) % 2 ^ 32 / 2 ^ 24 % 256, (v + 2 ^ 31) % 2 ^ 32 / 2 ^ 16 % 256,
     (v + 2 ^ 31) % 2 ^ 32 / 2 ^ 8 % 256, (v + 2 ^ 31) % 2 ^ 32 % 256] =
     beVal (putUint32BE ((v + 2 ^ 31) % 2 ^ 32)) from rfl, haux]

theorem claim_C9_witness :
    XidDeserializeValue (XidSerializeValue (some 5)) = some (some 5) :=
  (claim_C9_xid_roundtrip 5 (by omega)).1

/-- The UTF-8 byte length of a repeated rune. -/
theorem charsByteLen_replicate (n : Nat) (c : Char) :
    charsByteLen (List.replicate n c) = n * c.utf8Size := by
  induction n with
  | zero => simp [charsByteLen]
  | succ n ih =>
    simp only [List.replicate_succ, charsByteLen, List.map_cons, List.sum_cons] at ih ⊢
    rw [ih]
    ring

/-- C10 counterexample: the claim fails as stated. A varchar of Length
10 converting an all-ASCII string of byte length exactly `2^32` sees the
wrapped fast-path check `uint32(len(val)) = 0 > 10` fail, skips
truncation, and returns the value unchanged — whose rune count `2^32`
exceeds Length. -/
theorem claim_C10_counterexample :
    VarCharConvert 10 (.sqlStr (List.replicate (2 ^ 32) 'a')) =
      .ok (some (List.replicate (2 ^ 32) 'a'), .InRange)
    ∧ 10 < (List.replicate (2 ^ 32) 'a').length := by
  have key : ∀ cs : List Char, charsByteLen cs = 2 ^ 32 →
      VarCharConvert 10 (.sqlStr cs) = .ok (some cs, .InRange) := by
    intro cs h
    simp [VarCharConvert, h]
  refine ⟨key _ ?_, ?_⟩
  · rw [charsByteLen_replicate, show ('a' : Char).utf8Size = 1 from rfl, Nat.mul_one]
  · rw [List.length_replicate]
    omega

/-- C10 (amended): on string and byte-slice inputs whose byte length is
below `2^32` — so the narrowing `uint32` casts in the length checks do
not wrap — `VarCharType.Convert` never errors and always reports
in-range; when the rune count exceeds the type's Length it truncates to
the first Length runes, so every converted result has rune count at most
Length; nil converts to nil. -/
theorem claim_C10_varchar_truncate :
    ∀ (L : Nat) (cs : List Char), charsByteLen cs < 2 ^ 32 →
      VarCharConvert L (.sqlStr cs) =
        .ok (some (if L < cs.length then cs.take L else cs), .InRange)
      ∧ VarCharConvert L (.sqlBytes cs) =
        .ok (some (if L < cs.length then cs.take L else cs), .InRange)
      ∧ (if L < cs.length then cs.take L else cs).length ≤ L
      ∧ VarCharConvert L .sqlNull = .ok (none, .InRange) := by
  intro L cs hw
  have hb := length_le_charsByteLen cs
  have hmb : charsByteLen cs % 2 ^ 32 = charsByteLen cs := Nat.mod_eq_of_lt hw
  have hml : cs.length % 2 ^ 32 = cs.length := Nat.mod_eq_of_lt (by omega)
  refine ⟨?_, ?_, ?_, rfl⟩
  · simp only [VarCharConvert, hmb, hml]
    split_ifs <;> first | rfl | (exfalso; omega)
  · simp only [VarCharConvert, hmb, hml]
    split_ifs <;> first | rfl | (exfalso; omega)
  · split_ifs with h
    · simp [List.length_take]
    · omega

theorem claim_C10_witness :
    VarCharConvert 1 (.sqlStr ['a', 'b']) =
      .ok (some (if 1 < (['a', 'b'] : List Char).length
        then (['a', 'b'] : List Char).take 1 else ['a', 'b']), .InRange)
    ∧ VarCharConvert 1 (.sqlBytes ['a', 'b']) =
      .ok (some (if 1 < (['a', 'b'] : List Char).length
        then (['a', 'b'] : List Char).take 1 else ['a', 'b']), .InRange)
    ∧ (if 1 < (['a', 'b'] : List Char).length
        then (['a', 'b'] : List Char).take 1 else ['a', 'b']).length ≤ 1
    ∧ VarCharConvert 1 .sqlNull = .ok (none, .InRange) :=
  claim_C10_varchar_truncate 1 ['a', 'b'] (by decide)

end Doltgres
